import Mathlib

/-!
Verification of the statement/expression parser of the rust-monkey-interpreter
repository (src/parser/mod.rs), as a shallow embedding in Lean.

The parser is embedded over an explicit token-stream state (`List Token`):
the Rust `Peekable<LexerIter>` cursor becomes explicit state passing, with
`peek` looking at the head of the list and consumption dropping it.  A `Nat`
fuel argument makes the mutual recursion structural; we prove separately that
the fuel chosen by `parse_program` is always sufficient.
-/

set_option maxHeartbeats 1000000

/-- Modelled from the spec: the lexical token type produced by the external
scanner (the repository's `src/lexer/token.rs` is not among the given sources).
The variant set is exactly the set of token constructors the parser in
`src/parser/mod.rs` consumes, matching spec §3 ("identifier, integer literal,
keyword, operator, punctuation"). -/
inductive Token where
  | Identifier (s : String)
  | Int (s : String)
  | Assign
  | Plus
  | Minus
  | Bang
  | Asterisk
  | Slash
  | Lt
  | Gt
  | Eq
  | Noteq
  | Comma
  | Semicolon
  | Lparen
  | Rparen
  | Lbrace
  | Rbrace
  | Function
  | Let
  | True
  | False
  | If
  | Else
  | Return
deriving Repr, DecidableEq

/-- Modelled from the spec: §4.2, the totally ordered precedence enumeration
`Lowest < Equals < LessGreater < Sum < Product < Prefix < Call` (the
repository's `src/parser/precedence.rs` is not among the given sources).
The `Prefix` level is named `PrefixPrec` here. -/
inductive Precedence where
  | Lowest
  | Equals
  | LessGreater
  | Sum
  | Product
  | PrefixPrec
  | CallPrec
deriving Repr, DecidableEq

/-- The declaration-order rank underlying the derived total order on
`Precedence` (Rust derives `PartialOrd`/`Ord` on the enum). -/
def Precedence.toNat : Precedence → Nat
  | Precedence.Lowest => 0
  | Precedence.Equals => 1
  | Precedence.LessGreater => 2
  | Precedence.Sum => 3
  | Precedence.Product => 4
  | Precedence.PrefixPrec => 5
  | Precedence.CallPrec => 6

/-- The strict order `<` on `Precedence` used by the climbing loop. -/
def Precedence.ltb (a b : Precedence) : Bool :=
  a.toNat < b.toNat

/-- Modelled from the spec: §4.2, `precedence_of(token)`: `*`,`/` map to
`Product`; `+`,`-` to `Sum`; `<`,`>` to `LessGreater`; `==`,`!=` to `Equals`;
`(` to `Call`; every other token (no infix meaning) to `Lowest`. -/
def Precedence.get_precedence : Token → Precedence
  | Token.Plus => Precedence.Sum
  | Token.Minus => Precedence.Sum
  | Token.Asterisk => Precedence.Product
  | Token.Slash => Precedence.Product
  | Token.Lt => Precedence.LessGreater
  | Token.Gt => Precedence.LessGreater
  | Token.Eq => Precedence.Equals
  | Token.Noteq => Precedence.Equals
  | Token.Lparen => Precedence.CallPrec
  | _ => Precedence.Lowest

/-- Modelled from the spec: the unary operator tags `{Negate, Not}` of
`Expression::Prefix` (named `Bang`/`Minus` in the parser source; the
repository's `src/parser/ast.rs` is not among the given sources). -/
inductive PrefixOp where
  | Bang
  | Minus
deriving Repr, DecidableEq

/-- Modelled from the spec: the binary operator tags of `Expression::Infix`
(the repository's `src/parser/ast.rs` is not among the given sources). -/
inductive InfixOp where
  | Plus
  | Minus
  | Multiply
  | Divide
  | LessThan
  | GreaterThan
  | Equal
  | NotEqual
deriving Repr, DecidableEq

mutual

/-- Modelled from the spec: §3's `Expression` variant set, with constructor
shapes exactly as constructed by `src/parser/mod.rs` (Rust's `Box` is erased;
`Expression::Prefix`/`Expression::Infix` are named `PrefixExpr`/`InfixExpr`).
The `If` consequence/alternative and the `Function` body are `Statement`s
(always `BlockStatement`s in the code). -/
inductive Expression where
  | Identifier (s : String)
  | Integer (n : Int)
  | Boolean (b : Bool)
  | PrefixExpr (op : PrefixOp) (right : Expression)
  | InfixExpr (left : Expression) (op : InfixOp) (right : Expression)
  | If (condition : Expression) (consequence : Statement) (alternative : Option Statement)
  | Function (parameters : List Expression) (body : Statement)
  | Call (callee : Expression) (arguments : List Expression)

/-- Modelled from the spec: §3's `Statement` variant set as constructed by
`src/parser/mod.rs`. -/
inductive Statement where
  | Let (identifier : Expression) (value : Expression)
  | Return (value : Expression)
  | Expression (e : Expression)
  | BlockStatement (statements : List Statement)

end

/-- `Program` wraps the ordered top-level statement list (Rust's
`Program(Vec<Statement>)` newtype, with the wrapper erased). -/
abbrev Program := List Statement

/-- The closed parse-error taxonomy of `src/parser/mod.rs`. -/
inductive ParsingError where
  | UnexpectedToken (t : Token)
  | UnexpectedEof
  | UnexpectedSemicolon
  | InvalidPrefixOperator (t : Token)
  | InvalidInteger (s : String)
  | Generic (s : String)
deriving Repr, DecidableEq

/-- `true` exactly on the `Generic` error variant. -/
def is_generic : ParsingError → Bool
  | ParsingError.Generic _ => true
  | _ => false

/-- Accumulate the value of a run of decimal digits; `none` if a non-digit
character appears. -/
def digits_val : List Char → Nat → Option Nat
  | [], acc => some acc
  | c :: cs, acc =>
      if c.isDigit then digits_val cs (acc * 10 + (c.toNat - Char.toNat '0'))
      else none

/-- Modelled from the spec: Rust's `str::parse::<i64>()` as used by
`parse_integer` — an optional sign followed by one or more decimal digits,
rejected when empty, containing a non-digit, or out of the `i64` range. -/
def string_to_i64 (s : String) : Option Int :=
  let core : List Char → Bool → Option Int := fun cs neg =>
    match cs with
    | [] => none
    | _ =>
      match digits_val cs 0 with
      | none => none
      | some v =>
          if neg then
            if v ≤ 9223372036854775808 then some (-(v : Int)) else none
          else
            if v ≤ 9223372036854775807 then some ((v : Int)) else none
  match s.data with
  | '-' :: cs => core cs true
  | '+' :: cs => core cs false
  | cs => core cs false

/-- `Parser::parse_integer` (src/parser/mod.rs:238-242): parse the integer
literal's text, surfacing failure as `InvalidInteger`. -/
def parse_integer (s : String) : Except ParsingError Expression :=
  match string_to_i64 s with
  | some n => Except.ok (Expression.Integer n)
  | none => Except.error (ParsingError.InvalidInteger s)

/-- `Parser::next_token_or_end` (src/parser/mod.rs:169-175): peek the stream;
a `;` is `UnexpectedSemicolon` (left in place), exhaustion is `UnexpectedEof`,
anything else is consumed and returned. -/
def next_token_or_end : List Token → Except ParsingError Token × List Token
  | [] => (Except.error ParsingError.UnexpectedEof, [])
  | Token.Semicolon :: rest => (Except.error ParsingError.UnexpectedSemicolon, Token.Semicolon :: rest)
  | t :: rest => (Except.ok t, rest)

/-- `Parser::skip_to_semicolon` (src/parser/mod.rs:177-185): discard tokens up
to, but not including, the next `;` (or the end of the stream). -/
def skip_to_semicolon : List Token → List Token
  | [] => []
  | Token.Semicolon :: rest => Token.Semicolon :: rest
  | _ :: rest => skip_to_semicolon rest

/-- The `loop` of `Parser::parse_function_parameters`
(src/parser/mod.rs:308-325): each iteration demands an identifier via
`next_token_or_end` and then inspects the next token: `,` is consumed and the
loop repeats, `)` is consumed and the loop ends, any other present token is an
`UnexpectedToken` (left unconsumed), exhaustion is `UnexpectedEof`. -/
def parse_function_parameters_loop :
    List Expression → List Token → Except ParsingError (List Expression) × List Token
  | _, [] => (Except.error ParsingError.UnexpectedEof, [])
  | _, Token.Semicolon :: rest =>
      (Except.error ParsingError.UnexpectedSemicolon, Token.Semicolon :: rest)
  | acc, Token.Identifier id :: rest =>
      let acc' := acc ++ [Expression.Identifier id]
      match rest with
      | Token.Comma :: rest2 => parse_function_parameters_loop acc' rest2
      | Token.Rparen :: rest2 => (Except.ok acc', rest2)
      | t :: rest2 => (Except.error (ParsingError.UnexpectedToken t), t :: rest2)
      | [] => (Except.error ParsingError.UnexpectedEof, [])
  | _, t :: rest => (Except.error (ParsingError.UnexpectedToken t), rest)

/-- `Parser::parse_function_parameters` (src/parser/mod.rs:299-328): require
`(`, then run the parameter-list loop. -/
def parse_function_parameters (ts : List Token) :
    Except ParsingError (List Expression) × List Token :=
  match next_token_or_end ts with
  | (Except.error e, ts') => (Except.error e, ts')
  | (Except.ok Token.Lparen, ts1) => parse_function_parameters_loop [] ts1
  | (Except.ok t, ts1) => (Except.error (ParsingError.UnexpectedToken t), ts1)

/-- Result of a fuel-indexed parsing function: `none` when the fuel ran out,
otherwise the `Result` together with the stream left behind (on success and on
error alike, since the Rust cursor survives an `Err` return). -/
abbrev PRes (α : Type) := Option (Except ParsingError α × List Token)

/-- Error propagation in the style of Rust's `?` operator: a fuel-out or an
error result passes through untouched (together with the stream position it
left behind), and a success feeds the value and the new stream to the
continuation. -/
def pbind {α β : Type} (x : PRes α) (k : α → List Token → PRes β) : PRes β :=
  match x with
  | none => none
  | some (Except.error e, ts') => some (Except.error e, ts')
  | some (Except.ok a, ts') => k a ts'

mutual

/-- `Parser::parse_statement` (src/parser/mod.rs:49-70).  The caller passes
the peeked token `tok`; the `self.iter.next()` that consumes it is performed
by the caller in this embedding, so `ts` is the stream after `tok`.  `let` and
`return` statements always resynchronize via `skip_to_semicolon`; expression
statements do so only on error. -/
def parse_statement : Nat → Token → List Token → PRes Statement
  | 0, _, _ => none
  | fuel+1, tok, ts =>
    match tok with
    | Token.Let =>
      match parse_let fuel ts with
      | none => none
      | some (r, ts') => some (r, skip_to_semicolon ts')
    | Token.Return =>
      match parse_return fuel ts with
      | none => none
      | some (r, ts') => some (r, skip_to_semicolon ts')
    | t =>
      match parse_expression_statement fuel t ts with
      | none => none
      | some (Except.ok s, ts') => some (Except.ok s, ts')
      | some (Except.error e, ts') => some (Except.error e, skip_to_semicolon ts')

/-- `Parser::parse_let` (src/parser/mod.rs:72-102): identifier, `=`, an
expression at `Lowest`, then a required (peeked, unconsumed) `;`. -/
def parse_let : Nat → List Token → PRes Statement
  | 0, _ => none
  | fuel+1, ts =>
    match next_token_or_end ts with
    | (Except.error e, ts') => some (Except.error e, ts')
    | (Except.ok (Token.Identifier id), ts1) =>
      match next_token_or_end ts1 with
      | (Except.error e, ts') => some (Except.error e, ts')
      | (Except.ok Token.Assign, ts2) =>
        match next_token_or_end ts2 with
        | (Except.error e, ts') => some (Except.error e, ts')
        | (Except.ok tok, ts3) =>
          pbind (parse_expression fuel tok Precedence.Lowest ts3) (fun exp ts4 =>
            match ts4 with
            | Token.Semicolon :: _ =>
                some (Except.ok (Statement.Let (Expression.Identifier id) exp), ts4)
            | t :: _ => some (Except.error (ParsingError.UnexpectedToken t), ts4)
            | [] => some (Except.error ParsingError.UnexpectedEof, []))
      | (Except.ok t, ts2) => some (Except.error (ParsingError.UnexpectedToken t), ts2)
    | (Except.ok t, ts1) => some (Except.error (ParsingError.UnexpectedToken t), ts1)

/-- `Parser::parse_return` (src/parser/mod.rs:104-122): an expression at
`Lowest`, then a required (peeked, unconsumed) `;`. -/
def parse_return : Nat → List Token → PRes Statement
  | 0, _ => none
  | fuel+1, ts =>
    match next_token_or_end ts with
    | (Except.error e, ts') => some (Except.error e, ts')
    | (Except.ok tok, ts1) =>
      pbind (parse_expression fuel tok Precedence.Lowest ts1) (fun exp ts2 =>
        match ts2 with
        | Token.Semicolon :: _ => some (Except.ok (Statement.Return exp), ts2)
        | t :: _ => some (Except.error (ParsingError.UnexpectedToken t), ts2)
        | [] => some (Except.error ParsingError.UnexpectedEof, []))

/-- `Parser::parse_expression_statement` (src/parser/mod.rs:124-131): a bare
expression at `Lowest` precedence; no terminator is demanded. -/
def parse_expression_statement : Nat → Token → List Token → PRes Statement
  | 0, _, _ => none
  | fuel+1, tok, ts =>
    pbind (parse_expression fuel tok Precedence.Lowest ts) (fun e ts' =>
      some (Except.ok (Statement.Expression e), ts'))

/-- `Parser::parse_block_statement` (src/parser/mod.rs:133-167): require `{`,
run the inner statement loop, then require `}`. -/
def parse_block_statement : Nat → List Token → PRes Statement
  | 0, _ => none
  | fuel+1, ts =>
    match next_token_or_end ts with
    | (Except.error e, ts') => some (Except.error e, ts')
    | (Except.ok Token.Lbrace, ts1) =>
      pbind (parse_block_loop fuel [] ts1) (fun block ts2 =>
        match next_token_or_end ts2 with
        | (Except.error e, ts') => some (Except.error e, ts')
        | (Except.ok Token.Rbrace, ts3) =>
            some (Except.ok (Statement.BlockStatement block), ts3)
        | (Except.ok t, ts3) => some (Except.error (ParsingError.UnexpectedToken t), ts3))
    | (Except.ok t, ts1) => some (Except.error (ParsingError.UnexpectedToken t), ts1)

/-- The `loop` of `Parser::parse_block_statement` (src/parser/mod.rs:142-158):
skip stray `;`, stop (without consuming) at `}`, fail with `UnexpectedEof` at
exhaustion, and otherwise parse one statement, propagating its error (`?`). -/
def parse_block_loop : Nat → List Statement → List Token → PRes (List Statement)
  | 0, _, _ => none
  | fuel+1, acc, ts =>
    match ts with
    | [] => some (Except.error ParsingError.UnexpectedEof, [])
    | Token.Semicolon :: rest => parse_block_loop fuel acc rest
    | Token.Rbrace :: rest => some (Except.ok acc, Token.Rbrace :: rest)
    | tok :: rest =>
      pbind (parse_statement fuel tok rest) (fun s ts' =>
        parse_block_loop fuel (acc ++ [s]) ts')

/-- `Parser::parse_expression` (src/parser/mod.rs:187-232), the Pratt parser:
prefix dispatch on the already-consumed `tok`, then the infix/precedence
climbing loop (`parse_expression_loop`). -/
def parse_expression : Nat → Token → Precedence → List Token → PRes Expression
  | 0, _, _, _ => none
  | fuel+1, tok, prec, ts =>
    let pre : PRes Expression :=
      match tok with
      | Token.Identifier id => some (Except.ok (Expression.Identifier id), ts)
      | Token.Int s => some (parse_integer s, ts)
      | Token.Bang | Token.Minus => parse_prefix_expression fuel tok ts
      | Token.True => some (Except.ok (Expression.Boolean true), ts)
      | Token.False => some (Except.ok (Expression.Boolean false), ts)
      | Token.Lparen => parse_grouped_expression fuel ts
      | Token.If => parse_if_expression fuel ts
      | Token.Function => parse_function_literal fuel ts
      | t => some (Except.error (ParsingError.InvalidPrefixOperator t), ts)
    pbind pre (fun left ts' => parse_expression_loop fuel left prec ts')

/-- The infix `loop` of `Parser::parse_expression` (src/parser/mod.rs:205-229):
break at `;` or exhaustion; while the peeked token binds strictly tighter than
`prec`, consume it and extend `left` by an infix or call node; a consumed
operator outside both dispatch sets breaks the loop. -/
def parse_expression_loop : Nat → Expression → Precedence → List Token → PRes Expression
  | 0, _, _, _ => none
  | fuel+1, left, prec, ts =>
    match ts with
    | [] => some (Except.ok left, [])
    | Token.Semicolon :: rest => some (Except.ok left, Token.Semicolon :: rest)
    | right :: rest =>
      if Precedence.ltb prec (Precedence.get_precedence right) then
        match right with
        | Token.Plus | Token.Minus | Token.Asterisk | Token.Slash
        | Token.Lt | Token.Gt | Token.Eq | Token.Noteq =>
          pbind (parse_infix_expression fuel left right rest) (fun left2 ts' =>
            parse_expression_loop fuel left2 prec ts')
        | Token.Lparen =>
          pbind (parse_call_expression fuel left rest) (fun left2 ts' =>
            parse_expression_loop fuel left2 prec ts')
        | _ => some (Except.ok left, rest)
      else
        some (Except.ok left, right :: rest)

/-- `Parser::parse_prefix_expression` (src/parser/mod.rs:330-346): map the
operator token (`Generic` on anything but `!`/`-`), then parse the operand at
`Prefix` precedence. -/
def parse_prefix_expression : Nat → Token → List Token → PRes Expression
  | 0, _, _ => none
  | fuel+1, tok, ts =>
    let pfx : Except ParsingError PrefixOp :=
      match tok with
      | Token.Bang => Except.ok PrefixOp.Bang
      | Token.Minus => Except.ok PrefixOp.Minus
      | _ => Except.error (ParsingError.Generic ("should never get here... fix types"))
    match pfx with
    | Except.error e => some (Except.error e, ts)
    | Except.ok p =>
      match next_token_or_end ts with
      | (Except.error e, ts') => some (Except.error e, ts')
      | (Except.ok nt, ts1) =>
        pbind (parse_expression fuel nt Precedence.PrefixPrec ts1) (fun r ts' =>
          some (Except.ok (Expression.PrefixExpr p r), ts'))

/-- `Parser::parse_grouped_expression` (src/parser/mod.rs:248-259): inner
expression at `Lowest`; then if a token is present it must be `)` (consumed),
while an exhausted stream is accepted silently. -/
def parse_grouped_expression : Nat → List Token → PRes Expression
  | 0, _ => none
  | fuel+1, ts =>
    match next_token_or_end ts with
    | (Except.error e, ts') => some (Except.error e, ts')
    | (Except.ok nt, ts1) =>
      pbind (parse_expression fuel nt Precedence.Lowest ts1) (fun exp ts2 =>
        match ts2 with
        | [] => some (Except.ok exp, [])
        | Token.Rparen :: _ =>
          match next_token_or_end ts2 with
          | (Except.error e, ts') => some (Except.error e, ts')
          | (Except.ok _, ts3) => some (Except.ok exp, ts3)
        | t :: rest => some (Except.error (ParsingError.UnexpectedToken t), t :: rest))

/-- `Parser::parse_if_expression` (src/parser/mod.rs:261-287): require `(`
(passed back in as the condition's first token, so the condition parses as a
grouped expression), a block consequence, and an optional `else` block. -/
def parse_if_expression : Nat → List Token → PRes Expression
  | 0, _ => none
  | fuel+1, ts =>
    match next_token_or_end ts with
    | (Except.error e, ts') => some (Except.error e, ts')
    | (Except.ok Token.Lparen, ts1) =>
      pbind (parse_expression fuel Token.Lparen Precedence.Lowest ts1) (fun condition ts2 =>
        pbind (parse_block_statement fuel ts2) (fun consequence ts3 =>
          match ts3 with
          | Token.Else :: _ =>
            match next_token_or_end ts3 with
            | (Except.error e, ts') => some (Except.error e, ts')
            | (Except.ok _, ts4) =>
              pbind (parse_block_statement fuel ts4) (fun alt ts5 =>
                some (Except.ok (Expression.If condition consequence (some alt)), ts5))
          | _ => some (Except.ok (Expression.If condition consequence none), ts3)))
    | (Except.ok t, ts1) => some (Except.error (ParsingError.UnexpectedToken t), ts1)

/-- `Parser::parse_function_literal` (src/parser/mod.rs:289-297): parameter
list, then a block body. -/
def parse_function_literal : Nat → List Token → PRes Expression
  | 0, _ => none
  | fuel+1, ts =>
    match parse_function_parameters ts with
    | (Except.error e, ts') => some (Except.error e, ts')
    | (Except.ok params, ts1) =>
      pbind (parse_block_statement fuel ts1) (fun body ts2 =>
        some (Except.ok (Expression.Function params body), ts2))

/-- `Parser::parse_infix_expression` (src/parser/mod.rs:348-380): map the
operator token (`Generic` on a non-infix token), then parse the right operand
at the operator's own precedence. -/
def parse_infix_expression : Nat → Expression → Token → List Token → PRes Expression
  | 0, _, _, _ => none
  | fuel+1, left, operator, ts =>
    let ifx : Except ParsingError InfixOp :=
      match operator with
      | Token.Plus => Except.ok InfixOp.Plus
      | Token.Minus => Except.ok InfixOp.Minus
      | Token.Asterisk => Except.ok InfixOp.Multiply
      | Token.Slash => Except.ok InfixOp.Divide
      | Token.Lt => Except.ok InfixOp.LessThan
      | Token.Gt => Except.ok InfixOp.GreaterThan
      | Token.Eq => Except.ok InfixOp.Equal
      | Token.Noteq => Except.ok InfixOp.NotEqual
      | _ => Except.error (ParsingError.Generic ("should never get here... fix types"))
    match ifx with
    | Except.error e => some (Except.error e, ts)
    | Except.ok op =>
      match next_token_or_end ts with
      | (Except.error e, ts') => some (Except.error e, ts')
      | (Except.ok nt, ts1) =>
        pbind (parse_expression fuel nt (Precedence.get_precedence operator) ts1) (fun r ts' =>
          some (Except.ok (Expression.InfixExpr left op r), ts'))

/-- `Parser::parse_call_expression` (src/parser/mod.rs:382-413): a peeked `)`
gives an empty argument list; otherwise the first argument, the comma loop,
and a required `)` (via `next_token_or_end`). -/
def parse_call_expression : Nat → Expression → List Token → PRes Expression
  | 0, _, _ => none
  | fuel+1, left, ts =>
    match ts with
    | Token.Rparen :: rest => some (Except.ok (Expression.Call left []), rest)
    | _ =>
      match next_token_or_end ts with
      | (Except.error e, ts') => some (Except.error e, ts')
      | (Except.ok nt, ts1) =>
        pbind (parse_expression fuel nt Precedence.Lowest ts1) (fun arg ts2 =>
          pbind (parse_call_loop fuel [arg] ts2) (fun args ts3 =>
            match next_token_or_end ts3 with
            | (Except.error e, ts') => some (Except.error e, ts')
            | (Except.ok Token.Rparen, ts4) =>
                some (Except.ok (Expression.Call left args), ts4)
            | (Except.ok t, ts4) =>
                some (Except.error (ParsingError.UnexpectedToken t), ts4)))

/-- The comma `loop` of `Parser::parse_call_expression`
(src/parser/mod.rs:397-405): while a `,` is peeked, consume it and parse the
next argument at `Lowest`. -/
def parse_call_loop : Nat → List Expression → List Token → PRes (List Expression)
  | 0, _, _ => none
  | fuel+1, args, ts =>
    match ts with
    | Token.Comma :: rest =>
      match next_token_or_end rest with
      | (Except.error e, ts') => some (Except.error e, ts')
      | (Except.ok nt, ts1) =>
        pbind (parse_expression fuel nt Precedence.Lowest ts1) (fun arg ts2 =>
          parse_call_loop fuel (args ++ [arg]) ts2)
    | _ => some (Except.ok args, ts)

end

/-- The top `loop` of `Parser::parse_program` (src/parser/mod.rs:26-40): skip
bare `;` tokens, stop at exhaustion, and otherwise parse one statement,
pushing its result onto the statement or the error accumulator. -/
def parse_program_loop :
    Nat → List Statement → List ParsingError → List Token →
    Option (List Statement × List ParsingError)
  | 0, _, _, _ => none
  | fuel+1, stmts, errs, ts =>
    match ts with
    | [] => some (stmts, errs)
    | Token.Semicolon :: rest => parse_program_loop fuel stmts errs rest
    | tok :: rest =>
      match parse_statement fuel tok rest with
      | none => none
      | some (Except.ok s, ts') => parse_program_loop fuel (stmts ++ [s]) errs ts'
      | some (Except.error e, ts') => parse_program_loop fuel stmts (errs ++ [e]) ts'

/-- The fuel budget `parse_program` runs with; proven sufficient for every
stream (`parse_program` never returns `none`). -/
def parser_fuel (ts : List Token) : Nat := 6 * ts.length + 6

/-- `Parser::parse_program` (src/parser/mod.rs:18-47), over the token stream
produced by the (external) lexer: run the statement loop, then fail with the
collected error list when it is non-empty and succeed otherwise. -/
def parse_program (ts : List Token) : Option (Except (List ParsingError) Program) :=
  match parse_program_loop (parser_fuel ts) [] [] ts with
  | none => none
  | some (stmts, errs) =>
      if errs.length > 0 then some (Except.error errs) else some (Except.ok stmts)

/-! ## Small facts about the helpers -/

/-- Nothing is strictly below `Lowest` in the precedence order. -/
lemma Precedence.ltb_lowest (p : Precedence) : Precedence.ltb p Precedence.Lowest = false := by
  cases p <;> rfl

/-- `skip_to_semicolon` never grows the stream. -/
lemma skip_to_semicolon_length_le (ts : List Token) :
    (skip_to_semicolon ts).length ≤ ts.length := by
  induction ts with
  | nil => simp [skip_to_semicolon]
  | cons h t ih =>
    cases h <;> simp [skip_to_semicolon] <;> omega

/-- `true` exactly on the tokens `t` for which the one-token program `[t]`
fails to parse as a statement (every parameterless token except the literals
`true`/`false`; a bare `;` is skipped, identifier and integer tokens can
succeed). -/
def malformed_singleton : Token → Bool
  | Token.Identifier _ => false
  | Token.Int _ => false
  | Token.True => false
  | Token.False => false
  | Token.Semicolon => false
  | _ => true

/-! ## Claim theorems (part 1) -/

/-- C1: function-literal parameter parsing on the spec's two inputs.  The
trailing-comma half of the claim holds, but the empty-parameter-list half
fails on the code: `parse_function_parameters` (src/parser/mod.rs:299-328)
enters its identifier loop without first checking for `)`, unlike
`parse_call_expression` (src/parser/mod.rs:389-392), so `fn ( ) { }` is
rejected with `UnexpectedToken(Rparen)` instead of producing a `Function`
expression with no parameters; a non-empty list (third conjunct) parses. -/
theorem claim_C1 :
    parse_program [Token.Function, Token.Lparen, Token.Rparen, Token.Lbrace, Token.Rbrace] =
      some (Except.error [ParsingError.UnexpectedToken Token.Rparen]) ∧
    parse_program [Token.Function, Token.Lparen, Token.Identifier ("x"), Token.Comma,
        Token.Rparen, Token.Lbrace, Token.Rbrace] =
      some (Except.error [ParsingError.UnexpectedToken Token.Rparen]) ∧
    parse_program [Token.Function, Token.Lparen, Token.Identifier ("x"), Token.Rparen,
        Token.Lbrace, Token.Rbrace] =
      some (Except.ok [Statement.Expression
        (Expression.Function [Expression.Identifier ("x")] (Statement.BlockStatement []))]) :=
  ⟨rfl, rfl, rfl⟩

/-- C2 counterexample: with the token `;` after `let x`, the recorded error is
`UnexpectedSemicolon` produced by `next_token_or_end`
(src/parser/mod.rs:169-175), not `UnexpectedToken(;)` as the claim states for
every non-`=` token including `;`. -/
theorem claim_C2_counterexample :
    parse_program [Token.Let, Token.Identifier ("x"), Token.Semicolon] =
      some (Except.error [ParsingError.UnexpectedSemicolon]) ∧
    [ParsingError.UnexpectedSemicolon] ≠ [ParsingError.UnexpectedToken Token.Semicolon] :=
  ⟨rfl, by decide⟩

/-- C2 (amended): after `let x`, every present token other than `=` and `;`
is recorded as `UnexpectedToken` naming that token; a `;` there is recorded
as `UnexpectedSemicolon` instead. -/
theorem claim_C2 :
    (∀ (x : String) (t : Token), t ≠ Token.Assign → t ≠ Token.Semicolon →
      parse_program [Token.Let, Token.Identifier x, t] =
        some (Except.error [ParsingError.UnexpectedToken t])) ∧
    (∀ (x : String),
      parse_program [Token.Let, Token.Identifier x, Token.Semicolon] =
        some (Except.error [ParsingError.UnexpectedSemicolon])) := by
  constructor
  · intro x t h1 h2
    cases t
    case Assign => exact absurd rfl h1
    case Semicolon => exact absurd rfl h2
    all_goals rfl
  · intro x
    rfl

/-- C2 witness: the amended theorem applied at `let x +`. -/
theorem claim_C2_witness :
    parse_program [Token.Let, Token.Identifier ("x"), Token.Plus] =
      some (Except.error [ParsingError.UnexpectedToken Token.Plus]) :=
  claim_C2.1 "x" Token.Plus (by decide) (by decide)

/-- C3: `parse_grouped_expression` (src/parser/mod.rs:248-259) is asymmetric
at the closing delimiter: with the stream exhausted right after the inner
expression the grouped expression is returned successfully (first conjunct),
while a present token that is not `)` (and that does not extend the inner
expression, i.e. has precedence `Lowest`) yields `UnexpectedToken` naming it
(second conjunct). -/
theorem claim_C3 :
    (∀ (x : String) (fuel : Nat),
      parse_grouped_expression (fuel + 3) [Token.Identifier x] =
        some (Except.ok (Expression.Identifier x), [])) ∧
    (∀ (x : String) (t : Token) (rest : List Token) (fuel : Nat),
      Precedence.get_precedence t = Precedence.Lowest → t ≠ Token.Rparen →
      parse_grouped_expression (fuel + 3) (Token.Identifier x :: t :: rest) =
        some (Except.error (ParsingError.UnexpectedToken t), t :: rest)) := by
  constructor
  · intro x fuel
    rfl
  · intro x t rest fuel hp ht
    cases t
    case Rparen => exact absurd rfl ht
    case Semicolon => rfl
    all_goals first
      | exact absurd hp (by decide)
      | rfl

/-- C3 witness: the successful-missing-`)` half at `( a`, and the
`UnexpectedToken` half at `( a }`. -/
theorem claim_C3_witness :
    parse_grouped_expression 3 [Token.Identifier ("a")] =
      some (Except.ok (Expression.Identifier ("a")), []) ∧
    parse_grouped_expression 3 [Token.Identifier ("a"), Token.Rbrace] =
      some (Except.error (ParsingError.UnexpectedToken Token.Rbrace), [Token.Rbrace]) :=
  ⟨claim_C3.1 "a" 0, claim_C3.2 "a" Token.Rbrace [] 0 rfl (by decide)⟩

/-- C4: multi-error collection with statement-boundary resynchronization.
First conjunct: for any two tokens whose singleton statements are malformed,
the program `t1 ; t2` yields exactly two recorded errors.  Second conjunct:
the resynchronization routine `skip_to_semicolon` (src/parser/mod.rs:177-185)
discards exactly the tokens up to, but not including, the next `;`. -/
theorem claim_C4 :
    (∀ (t1 t2 : Token), malformed_singleton t1 = true → malformed_singleton t2 = true →
      ∃ e1 e2, parse_program [t1, Token.Semicolon, t2] = some (Except.error [e1, e2])) ∧
    (∀ ts : List Token,
      skip_to_semicolon ts =
        List.dropWhile (fun t => match t with | Token.Semicolon => false | _ => true) ts) := by
  constructor
  · intro t1 t2 h1 h2
    cases t1 <;> simp only [malformed_singleton, Bool.false_eq_true] at h1 <;>
      (cases t2 <;> simp only [malformed_singleton, Bool.false_eq_true] at h2 <;>
        exact ⟨_, _, rfl⟩)
  · intro ts
    induction ts with
    | nil => rfl
    | cons h t ih => cases h <;> simp [skip_to_semicolon, List.dropWhile, ih]

/-- C4 witness: two invalid-prefix statements `+ ; +` give exactly the two
errors, and a sample resynchronization run. -/
theorem claim_C4_witness :
    (∃ e1 e2, parse_program [Token.Plus, Token.Semicolon, Token.Plus] =
      some (Except.error [e1, e2])) ∧
    skip_to_semicolon [Token.Rbrace, Token.Semicolon, Token.Lt] =
      List.dropWhile (fun t => match t with | Token.Semicolon => false | _ => true)
        [Token.Rbrace, Token.Semicolon, Token.Lt] :=
  ⟨claim_C4.1 Token.Plus Token.Plus rfl rfl,
   claim_C4.2 [Token.Rbrace, Token.Semicolon, Token.Lt]⟩

/-- C5: the spec's precedence and left-associativity examples: `a + b * c`
groups the product to the right, `a * b + c` groups it to the left, and
`a - b - c` associates to the left. -/
theorem claim_C5 :
    parse_program [Token.Identifier ("a"), Token.Plus, Token.Identifier ("b"),
        Token.Asterisk, Token.Identifier ("c")] =
      some (Except.ok [Statement.Expression
        (Expression.InfixExpr (Expression.Identifier ("a")) InfixOp.Plus
          (Expression.InfixExpr (Expression.Identifier ("b")) InfixOp.Multiply
            (Expression.Identifier ("c"))))]) ∧
    parse_program [Token.Identifier ("a"), Token.Asterisk, Token.Identifier ("b"),
        Token.Plus, Token.Identifier ("c")] =
      some (Except.ok [Statement.Expression
        (Expression.InfixExpr
          (Expression.InfixExpr (Expression.Identifier ("a")) InfixOp.Multiply
            (Expression.Identifier ("b")))
          InfixOp.Plus (Expression.Identifier ("c")))]) ∧
    parse_program [Token.Identifier ("a"), Token.Minus, Token.Identifier ("b"),
        Token.Minus, Token.Identifier ("c")] =
      some (Except.ok [Statement.Expression
        (Expression.InfixExpr
          (Expression.InfixExpr (Expression.Identifier ("a")) InfixOp.Minus
            (Expression.Identifier ("b")))
          InfixOp.Minus (Expression.Identifier ("c")))]) :=
  ⟨rfl, rfl, rfl⟩

/-- The top-level statement loop consumes any run of bare `;` tokens without
recording statements or errors, for any fuel above the run's length. -/
lemma parse_program_loop_replicate :
    ∀ (n fuel : Nat) (stmts : List Statement) (errs : List ParsingError), n < fuel →
      parse_program_loop fuel stmts errs (List.replicate n Token.Semicolon) =
        some (stmts, errs) := by
  intro n
  induction n with
  | zero =>
    intro fuel stmts errs hf
    match fuel, hf with
    | fuel+1, _ => rfl
  | succ m ih =>
    intro fuel stmts errs hf
    match fuel, hf with
    | fuel+1, hf =>
      show parse_program_loop (fuel+1) stmts errs
        (Token.Semicolon :: List.replicate m Token.Semicolon) = some (stmts, errs)
      simp only [parse_program_loop]
      exact ih fuel stmts errs (by omega)

/-- C8: a token stream with no tokens, and more generally any stream of bare
statement terminators, parses successfully to the empty `Program` with no
errors (`parse_program` takes the semicolon-skipping branch of its loop, never
`UnexpectedEof`). -/
theorem claim_C8 :
    parse_program [] = some (Except.ok []) ∧
    ∀ n : Nat, parse_program (List.replicate n Token.Semicolon) = some (Except.ok []) := by
  refine ⟨rfl, ?_⟩
  intro n
  have h := parse_program_loop_replicate n (parser_fuel (List.replicate n Token.Semicolon))
    [] [] (by simp [parser_fuel]; omega)
  simp [parse_program, h]

/-- C10: adjacent complete expressions with no separating `;` parse as two
separate `Expression` statements with no error (first conjunct, for the
spec's example shape `a b`); the expression loop ends, without consuming,
at any token of precedence `Lowest` (second conjunct). -/
theorem claim_C10 :
    (∀ (x y : String),
      parse_program [Token.Identifier x, Token.Identifier y] =
        some (Except.ok [Statement.Expression (Expression.Identifier x),
          Statement.Expression (Expression.Identifier y)])) ∧
    (∀ (fuel : Nat) (left : Expression) (prec : Precedence) (t : Token) (rest : List Token),
      Precedence.get_precedence t = Precedence.Lowest →
      parse_expression_loop (fuel + 1) left prec (t :: rest) =
        some (Except.ok left, t :: rest)) := by
  constructor
  · intro x y
    rfl
  · intro fuel left prec t rest hp
    cases t
    case Semicolon => rfl
    all_goals first
      | exact absurd hp (by decide)
      | simp [parse_expression_loop, hp, Precedence.ltb_lowest]

/-- C10 witness: the adjacent-expressions fact at `a b`, and the loop-ending
fact at the token `b` following the finished expression `a`. -/
theorem claim_C10_witness :
    parse_program [Token.Identifier ("a"), Token.Identifier ("b")] =
      some (Except.ok [Statement.Expression (Expression.Identifier ("a")),
        Statement.Expression (Expression.Identifier ("b"))]) ∧
    parse_expression_loop 1 (Expression.Identifier ("a")) Precedence.Lowest
        [Token.Identifier ("b")] =
      some (Except.ok (Expression.Identifier ("a")), [Token.Identifier ("b")]) :=
  ⟨claim_C10.1 "a" "b",
   claim_C10.2 0 (Expression.Identifier ("a")) Precedence.Lowest (Token.Identifier ("b")) [] rfl⟩

/-! ## The parser invariant: sufficiency of the fuel, no `Generic` errors,
no top-level `BlockStatement` results -/

/-- A statement that is not a `BlockStatement` node. -/
def stmt_not_block (s : Statement) : Prop :=
  ∀ l, s ≠ Statement.BlockStatement l

/-- The invariant carried through every parsing function: the fuel did not run
out, the stream never grows, an error result is never `Generic`, and a
successful result satisfies `P`. -/
def POk {α : Type} (P : α → Prop) (ts : List Token) (res : PRes α) : Prop :=
  ∃ r ts', res = some (r, ts') ∧ ts'.length ≤ ts.length ∧
    (∀ e, r = Except.error e → is_generic e = false) ∧
    (∀ a, r = Except.ok a → P a)

lemma POk_err {α : Type} {P : α → Prop} {ts ts' : List Token} {e : ParsingError}
    (hg : is_generic e = false) (hl : ts'.length ≤ ts.length) :
    POk P ts (some (Except.error e, ts')) := by
  refine ⟨Except.error e, ts', rfl, hl, ?_, ?_⟩
  · intro e' he
    injection he with h
    exact h ▸ hg
  · intro a ha
    cases ha

lemma POk_ok {α : Type} {P : α → Prop} {ts ts' : List Token} {a : α}
    (hp : P a) (hl : ts'.length ≤ ts.length) :
    POk P ts (some (Except.ok a, ts')) := by
  refine ⟨Except.ok a, ts', rfl, hl, ?_, ?_⟩
  · intro e' he
    cases he
  · intro a' ha
    injection ha with h
    exact h ▸ hp

lemma POk_mono {α : Type} {P : α → Prop} {ts0 ts : List Token} {res : PRes α}
    (h : POk P ts0 res) (hl : ts0.length ≤ ts.length) : POk P ts res := by
  obtain ⟨r, ts', hEq, hLen, hNG, hOk⟩ := h
  exact ⟨r, ts', hEq, hLen.trans hl, hNG, hOk⟩

/-- The invariant is preserved by `pbind`: if the bound computation satisfies
it with respect to its own input stream `ts0` (itself no longer than the
ambient stream `ts`), and the continuation preserves it from any success, then
the whole `pbind` satisfies it. -/
lemma POk_bind {α β : Type} {P0 : α → Prop} {P : β → Prop} {ts0 ts : List Token}
    {x : PRes α} {k : α → List Token → PRes β}
    (hX : POk P0 ts0 x) (hl : ts0.length ≤ ts.length)
    (hK : ∀ a ts', ts'.length ≤ ts0.length → P0 a → POk P ts (k a ts')) :
    POk P ts (pbind x k) := by
  obtain ⟨r, ts', hEq, hLen, hNG, hOk⟩ := hX
  rw [hEq]
  cases r with
  | error e => exact POk_err (hNG e rfl) (hLen.trans hl)
  | ok a => exact hK a ts' hLen (hOk a rfl)

/-- A successful `next_token_or_end` consumed exactly the head token. -/
lemma next_token_or_end_ok {ts ts' : List Token} {t : Token}
    (h : next_token_or_end ts = (Except.ok t, ts')) : ts = t :: ts' := by
  cases ts with
  | nil => simp [next_token_or_end] at h
  | cons a l => cases a <;> simp [next_token_or_end] at h <;> simp_all

/-- A failing `next_token_or_end` leaves the stream alone and never produces
a `Generic` error. -/
lemma next_token_or_end_err {ts ts' : List Token} {e : ParsingError}
    (h : next_token_or_end ts = (Except.error e, ts')) :
    ts' = ts ∧ is_generic e = false := by
  cases ts with
  | nil =>
    simp [next_token_or_end] at h
    obtain ⟨h1, h2⟩ := h
    subst h1
    subst h2
    exact ⟨rfl, rfl⟩
  | cons a l =>
    cases a <;> simp [next_token_or_end] at h <;>
      (obtain ⟨h1, h2⟩ := h; subst h1; subst h2; exact ⟨rfl, rfl⟩)

/-- `parse_integer` never produces a `Generic` error. -/
lemma parse_integer_not_generic {s : String} {e : ParsingError}
    (h : parse_integer s = Except.error e) : is_generic e = false := by
  unfold parse_integer at h
  cases hsi : string_to_i64 s <;> rw [hsi] at h
  · injection h with h'
    subst h'
    rfl
  · cases h

/-- The parameter-list loop never grows the stream, shrinks it strictly on
success, and never produces a `Generic` error. -/
lemma parse_function_parameters_loop_spec :
    ∀ (acc : List Expression) (ts : List Token),
      (parse_function_parameters_loop acc ts).2.length ≤ ts.length ∧
      (∀ e, (parse_function_parameters_loop acc ts).1 = Except.error e →
        is_generic e = false) ∧
      (∀ ps, (parse_function_parameters_loop acc ts).1 = Except.ok ps →
        (parse_function_parameters_loop acc ts).2.length < ts.length) := by
  intro acc ts
  induction acc, ts using parse_function_parameters_loop.induct with
  | case1 acc =>
    refine ⟨by simp [parse_function_parameters_loop], ?_, ?_⟩
    · intro e he
      simp [parse_function_parameters_loop] at he
      subst he
      rfl
    · intro ps hps
      simp [parse_function_parameters_loop] at hps
  | case2 acc rest =>
    refine ⟨by simp [parse_function_parameters_loop], ?_, ?_⟩
    · intro e he
      simp [parse_function_parameters_loop] at he
      subst he
      rfl
    · intro ps hps
      simp [parse_function_parameters_loop] at hps
  | case3 acc id acc2 rest2 ih =>
    have hr : parse_function_parameters_loop acc
        (Token.Identifier id :: Token.Comma :: rest2) =
        parse_function_parameters_loop (acc ++ [Expression.Identifier id]) rest2 := rfl
    rw [hr]
    have hacc : acc2 = acc ++ [Expression.Identifier id] := rfl
    rw [hacc] at ih
    obtain ⟨h1, h2, h3⟩ := ih
    refine ⟨by simp; omega, h2, ?_⟩
    intro ps hps
    have := h3 ps hps
    simp
    omega
  | case4 acc id rest2 =>
    refine ⟨by simp [parse_function_parameters_loop]; omega, ?_, ?_⟩
    · intro e he
      simp [parse_function_parameters_loop] at he
    · intro ps hps
      simp [parse_function_parameters_loop]
      omega
  | case5 acc id t rest2 hne1 hne2 =>
    cases t
    case Comma => exact absurd rfl hne1
    case Rparen => exact absurd rfl hne2
    all_goals
      refine ⟨by simp [parse_function_parameters_loop] <;> omega, ?_, ?_⟩ <;>
        first
          | (intro e he
             simp [parse_function_parameters_loop] at he
             subst he
             rfl)
          | (intro ps hps
             simp [parse_function_parameters_loop] at hps)
  | case6 acc id =>
    refine ⟨by simp [parse_function_parameters_loop], ?_, ?_⟩
    · intro e he
      simp [parse_function_parameters_loop] at he
      subst he
      rfl
    · intro ps hps
      simp [parse_function_parameters_loop] at hps
  | case7 acc t rest hne1 hne2 =>
    cases t
    case Semicolon => exact absurd rfl hne1
    case Identifier s => exact absurd rfl (hne2 s)
    all_goals
      refine ⟨by simp [parse_function_parameters_loop] <;> omega, ?_, ?_⟩ <;>
        first
          | (intro e he
             simp [parse_function_parameters_loop] at he
             subst he
             rfl)
          | (intro ps hps
             simp [parse_function_parameters_loop] at hps)

/-- `true` exactly on the eight tokens dispatched to `parse_infix_expression`
by the climbing loop. -/
def is_infix_tok : Token → Bool
  | Token.Plus | Token.Minus | Token.Asterisk | Token.Slash
  | Token.Lt | Token.Gt | Token.Eq | Token.Noteq => true
  | _ => false

lemma cons_length {t : Token} {ts ts' : List Token} (h : ts = t :: ts') :
    ts.length = ts'.length + 1 := by
  subst h
  rfl

lemma stmt_not_block_let (a b : Expression) : stmt_not_block (Statement.Let a b) :=
  fun _ h => by cases h

lemma stmt_not_block_return (a : Expression) : stmt_not_block (Statement.Return a) :=
  fun _ h => by cases h

lemma stmt_not_block_expression (a : Expression) : stmt_not_block (Statement.Expression a) :=
  fun _ h => by cases h

/-- `parse_function_parameters` never grows the stream, shrinks it strictly on
success, and never produces a `Generic` error. -/
lemma parse_function_parameters_spec (ts : List Token) :
    (parse_function_parameters ts).2.length ≤ ts.length ∧
    (∀ e, (parse_function_parameters ts).1 = Except.error e → is_generic e = false) ∧
    (∀ ps, (parse_function_parameters ts).1 = Except.ok ps →
      (parse_function_parameters ts).2.length < ts.length) := by
  unfold parse_function_parameters
  split
  next e ts' heq =>
    obtain ⟨h1, h2⟩ := next_token_or_end_err heq
    subst h1
    refine ⟨le_rfl, ?_, ?_⟩
    · intro e' he
      injection he with hh
      subst hh
      exact h2
    · intro ps hps
      cases hps
  next ts1 heq =>
    have hc := next_token_or_end_ok heq
    have hl := cons_length hc
    obtain ⟨h1, h2, h3⟩ := parse_function_parameters_loop_spec [] ts1
    refine ⟨by omega, h2, ?_⟩
    intro ps hps
    have := h3 ps hps
    omega
  next t ts1 hne heq =>
    have hc := next_token_or_end_ok heq
    have hl := cons_length hc
    refine ⟨by simp; omega, ?_, ?_⟩
    · intro e' he
      injection he with hh
      subst hh
      rfl
    · intro ps hps
      cases hps

/-- `parse_function_parameters_spec` in equational form. -/
lemma parse_function_parameters_spec2 {ts ts1 : List Token}
    {r : Except ParsingError (List Expression)}
    (h : parse_function_parameters ts = (r, ts1)) :
    ts1.length ≤ ts.length ∧ (∀ e, r = Except.error e → is_generic e = false) ∧
    (∀ ps, r = Except.ok ps → ts1.length < ts.length) := by
  have hs := parse_function_parameters_spec ts
  rw [h] at hs
  exact hs

/-- The combined invariant of every fuel-indexed parsing function, by
induction on the fuel: whenever the fuel dominates `6·|stream| + rank` (the
rank reflecting the same-stream call chain
`parse_statement → parse_let/return/expression_statement → parse_expression →
prefix dispatch`), the function returns `some` result, consumes tokens only,
never reports a `Generic` error, and — for the statement family — never hands
back a `BlockStatement`. -/
theorem parser_invariants : ∀ fuel : Nat,
    (∀ tok ts, 6 * ts.length + 6 ≤ fuel →
      POk stmt_not_block ts (parse_statement fuel tok ts)) ∧
    (∀ ts, 6 * ts.length + 5 ≤ fuel → POk stmt_not_block ts (parse_let fuel ts)) ∧
    (∀ ts, 6 * ts.length + 5 ≤ fuel → POk stmt_not_block ts (parse_return fuel ts)) ∧
    (∀ tok ts, 6 * ts.length + 5 ≤ fuel →
      POk stmt_not_block ts (parse_expression_statement fuel tok ts)) ∧
    (∀ tok prec ts, 6 * ts.length + 4 ≤ fuel →
      POk (fun _ => True) ts (parse_expression fuel tok prec ts)) ∧
    (∀ left prec ts, 6 * ts.length + 3 ≤ fuel →
      POk (fun _ => True) ts (parse_expression_loop fuel left prec ts)) ∧
    (∀ tok ts, 6 * ts.length + 3 ≤ fuel → (tok = Token.Bang ∨ tok = Token.Minus) →
      POk (fun _ => True) ts (parse_prefix_expression fuel tok ts)) ∧
    (∀ ts, 6 * ts.length + 3 ≤ fuel →
      POk (fun _ => True) ts (parse_grouped_expression fuel ts)) ∧
    (∀ ts, 6 * ts.length + 3 ≤ fuel →
      POk (fun _ => True) ts (parse_if_expression fuel ts)) ∧
    (∀ ts, 6 * ts.length + 3 ≤ fuel →
      POk (fun _ => True) ts (parse_function_literal fuel ts)) ∧
    (∀ left op ts, 6 * ts.length + 1 ≤ fuel → is_infix_tok op = true →
      POk (fun _ => True) ts (parse_infix_expression fuel left op ts)) ∧
    (∀ left ts, 6 * ts.length + 1 ≤ fuel →
      POk (fun _ => True) ts (parse_call_expression fuel left ts)) ∧
    (∀ args ts, 6 * ts.length + 1 ≤ fuel →
      POk (fun _ => True) ts (parse_call_loop fuel args ts)) ∧
    (∀ ts, 6 * ts.length + 1 ≤ fuel →
      POk (fun _ => True) ts (parse_block_statement fuel ts)) ∧
    (∀ acc ts, 6 * ts.length + 1 ≤ fuel →
      POk (fun _ => True) ts (parse_block_loop fuel acc ts)) := by
  intro fuel
  induction fuel with
  | zero =>
    refine ⟨?_, ?_, ?_, ?_, ?_, ?_, ?_, ?_, ?_, ?_, ?_, ?_, ?_, ?_, ?_⟩
    · intro tok ts hh
      exact absurd hh (by omega)
    · intro ts hh
      exact absurd hh (by omega)
    · intro ts hh
      exact absurd hh (by omega)
    · intro tok ts hh
      exact absurd hh (by omega)
    · intro tok prec ts hh
      exact absurd hh (by omega)
    · intro left prec ts hh
      exact absurd hh (by omega)
    · intro tok ts hh hbm
      exact absurd hh (by omega)
    · intro ts hh
      exact absurd hh (by omega)
    · intro ts hh
      exact absurd hh (by omega)
    · intro ts hh
      exact absurd hh (by omega)
    · intro left op ts hh hop
      exact absurd hh (by omega)
    · intro left ts hh
      exact absurd hh (by omega)
    · intro args ts hh
      exact absurd hh (by omega)
    · intro ts hh
      exact absurd hh (by omega)
    · intro acc ts hh
      exact absurd hh (by omega)
  | succ n ih =>
    obtain ⟨ihS, ihLet, ihRet, ihES, ihE, ihEL, ihPre, ihG, ihIf, ihFn, ihIn,
      ihCall, ihCL, ihB, ihBL⟩ := ih
    refine ⟨?_, ?_, ?_, ?_, ?_, ?_, ?_, ?_, ?_, ?_, ?_, ?_, ?_, ?_, ?_⟩
    -- parse_statement
    · intro tok ts h
      cases tok
      case Let =>
        simp only [parse_statement]
        obtain ⟨r, ts', hEq, hLen, hNG, hOk⟩ := ihLet ts (by omega)
        rw [hEq]
        cases r with
        | error e =>
          exact POk_err (hNG e rfl) ((skip_to_semicolon_length_le ts').trans hLen)
        | ok s =>
          exact POk_ok (hOk s rfl) ((skip_to_semicolon_length_le ts').trans hLen)
      case Return =>
        simp only [parse_statement]
        obtain ⟨r, ts', hEq, hLen, hNG, hOk⟩ := ihRet ts (by omega)
        rw [hEq]
        cases r with
        | error e =>
          exact POk_err (hNG e rfl) ((skip_to_semicolon_length_le ts').trans hLen)
        | ok s =>
          exact POk_ok (hOk s rfl) ((skip_to_semicolon_length_le ts').trans hLen)
      all_goals
        simp only [parse_statement]
        obtain ⟨r, ts', hEq, hLen, hNG, hOk⟩ := ihES _ ts (by omega)
        rw [hEq]
        cases r with
        | error e =>
          exact POk_err (hNG e rfl) ((skip_to_semicolon_length_le ts').trans hLen)
        | ok s =>
          exact POk_ok (hOk s rfl) hLen
    -- parse_let
    · intro ts h
      simp only [parse_let]
      split
      next e ts' heq =>
        obtain ⟨h1, h2⟩ := next_token_or_end_err heq
        subst h1
        exact POk_err h2 le_rfl
      next id ts1 heq =>
        have hc1 := next_token_or_end_ok heq
        have hl1 := cons_length hc1
        split
        next e ts' heq2 =>
          obtain ⟨h1, h2⟩ := next_token_or_end_err heq2
          subst h1
          exact POk_err h2 (by omega)
        next ts2 heq2 =>
          have hc2 := next_token_or_end_ok heq2
          have hl2 := cons_length hc2
          split
          next e ts' heq3 =>
            obtain ⟨h1, h2⟩ := next_token_or_end_err heq3
            subst h1
            exact POk_err h2 (by omega)
          next tok ts3 heq3 =>
            have hc3 := next_token_or_end_ok heq3
            have hl3 := cons_length hc3
            obtain ⟨r, ts4, hEq, hLen, hNG, hO⟩ := ihE tok Precedence.Lowest ts3 (by omega)
            rw [hEq]
            cases r with
            | error e => exact POk_err (hNG e rfl) (by omega)
            | ok exp =>
              cases ts4 with
              | nil => exact POk_err rfl (Nat.zero_le _)
              | cons hd tl =>
                cases hd
                case Semicolon => exact POk_ok (stmt_not_block_let _ _) (by omega)
                all_goals exact POk_err rfl (by omega)
        next t ts2 hne heq2 =>
          have hc2 := next_token_or_end_ok heq2
          have hl2 := cons_length hc2
          exact POk_err rfl (by omega)
      next t ts1 hne heq =>
        have hc1 := next_token_or_end_ok heq
        have hl1 := cons_length hc1
        exact POk_err rfl (by omega)
    -- parse_return
    · intro ts h
      simp only [parse_return]
      split
      next e ts' heq =>
        obtain ⟨h1, h2⟩ := next_token_or_end_err heq
        subst h1
        exact POk_err h2 le_rfl
      next tok ts1 heq =>
        have hc1 := next_token_or_end_ok heq
        have hl1 := cons_length hc1
        obtain ⟨r, ts2, hEq, hLen, hNG, hO⟩ := ihE tok Precedence.Lowest ts1 (by omega)
        rw [hEq]
        cases r with
        | error e => exact POk_err (hNG e rfl) (by omega)
        | ok exp =>
          cases ts2 with
          | nil => exact POk_err rfl (Nat.zero_le _)
          | cons hd tl =>
            cases hd
            case Semicolon => exact POk_ok (stmt_not_block_return _) (by omega)
            all_goals exact POk_err rfl (by omega)
    -- parse_expression_statement
    · intro tok ts h
      simp only [parse_expression_statement]
      obtain ⟨r, ts', hEq, hLen, hNG, hO⟩ := ihE tok Precedence.Lowest ts (by omega)
      rw [hEq]
      cases r with
      | error e => exact POk_err (hNG e rfl) hLen
      | ok e => exact POk_ok (stmt_not_block_expression _) hLen
    -- parse_expression
    · intro tok prec ts h
      cases tok
      case Identifier id =>
        simp only [parse_expression]
        exact POk_mono (ihEL (Expression.Identifier id) prec ts (by omega)) le_rfl
      case Int s =>
        simp only [parse_expression]
        cases hpi : parse_integer s with
        | error e =>
          exact POk_err (parse_integer_not_generic hpi) le_rfl
        | ok ex =>
          exact POk_mono (ihEL ex prec ts (by omega)) le_rfl
      case Bang =>
        simp only [parse_expression]
        obtain ⟨r, ts', hEq, hLen, hNG, hO⟩ := ihPre Token.Bang ts (by omega) (Or.inl rfl)
        rw [hEq]
        cases r with
        | error e => exact POk_err (hNG e rfl) hLen
        | ok left => exact POk_mono (ihEL left prec ts' (by omega)) hLen
      case Minus =>
        simp only [parse_expression]
        obtain ⟨r, ts', hEq, hLen, hNG, hO⟩ := ihPre Token.Minus ts (by omega) (Or.inr rfl)
        rw [hEq]
        cases r with
        | error e => exact POk_err (hNG e rfl) hLen
        | ok left => exact POk_mono (ihEL left prec ts' (by omega)) hLen
      case True =>
        simp only [parse_expression]
        exact POk_mono (ihEL (Expression.Boolean true) prec ts (by omega)) le_rfl
      case False =>
        simp only [parse_expression]
        exact POk_mono (ihEL (Expression.Boolean false) prec ts (by omega)) le_rfl
      case Lparen =>
        simp only [parse_expression]
        obtain ⟨r, ts', hEq, hLen, hNG, hO⟩ := ihG ts (by omega)
        rw [hEq]
        cases r with
        | error e => exact POk_err (hNG e rfl) hLen
        | ok left => exact POk_mono (ihEL left prec ts' (by omega)) hLen
      case If =>
        simp only [parse_expression]
        obtain ⟨r, ts', hEq, hLen, hNG, hO⟩ := ihIf ts (by omega)
        rw [hEq]
        cases r with
        | error e => exact POk_err (hNG e rfl) hLen
        | ok left => exact POk_mono (ihEL left prec ts' (by omega)) hLen
      case Function =>
        simp only [parse_expression]
        obtain ⟨r, ts', hEq, hLen, hNG, hO⟩ := ihFn ts (by omega)
        rw [hEq]
        cases r with
        | error e => exact POk_err (hNG e rfl) hLen
        | ok left => exact POk_mono (ihEL left prec ts' (by omega)) hLen
      all_goals
        simp only [parse_expression]
        exact POk_err rfl le_rfl
    -- parse_expression_loop
    · intro left prec ts h
      cases ts with
      | nil =>
        simp only [parse_expression_loop]
        exact POk_ok True.intro le_rfl
      | cons right rest =>
        have hl : (right :: rest).length = rest.length + 1 := rfl
        cases right
        case Semicolon =>
          simp only [parse_expression_loop]
          exact POk_ok True.intro le_rfl
        case Lparen =>
          simp only [parse_expression_loop]
          split
          next hlt =>
            obtain ⟨r, ts', hEq, hLen, hNG, hO⟩ := ihCall left rest (by omega)
            rw [hEq]
            cases r with
            | error e => exact POk_err (hNG e rfl) (by omega)
            | ok left2 => exact POk_mono (ihEL left2 prec ts' (by omega)) (by omega)
          next hlt => exact POk_ok True.intro le_rfl
        case Plus =>
          simp only [parse_expression_loop]
          split
          next hlt =>
            obtain ⟨r, ts', hEq, hLen, hNG, hO⟩ := ihIn left Token.Plus rest (by omega) rfl
            rw [hEq]
            cases r with
            | error e => exact POk_err (hNG e rfl) (by omega)
            | ok left2 => exact POk_mono (ihEL left2 prec ts' (by omega)) (by omega)
          next hlt => exact POk_ok True.intro le_rfl
        case Minus =>
          simp only [parse_expression_loop]
          split
          next hlt =>
            obtain ⟨r, ts', hEq, hLen, hNG, hO⟩ := ihIn left Token.Minus rest (by omega) rfl
            rw [hEq]
            cases r with
            | error e => exact POk_err (hNG e rfl) (by omega)
            | ok left2 => exact POk_mono (ihEL left2 prec ts' (by omega)) (by omega)
          next hlt => exact POk_ok True.intro le_rfl
        case Asterisk =>
          simp only [parse_expression_loop]
          split
          next hlt =>
            obtain ⟨r, ts', hEq, hLen, hNG, hO⟩ := ihIn left Token.Asterisk rest (by omega) rfl
            rw [hEq]
            cases r with
            | error e => exact POk_err (hNG e rfl) (by omega)
            | ok left2 => exact POk_mono (ihEL left2 prec ts' (by omega)) (by omega)
          next hlt => exact POk_ok True.intro le_rfl
        case Slash =>
          simp only [parse_expression_loop]
          split
          next hlt =>
            obtain ⟨r, ts', hEq, hLen, hNG, hO⟩ := ihIn left Token.Slash rest (by omega) rfl
            rw [hEq]
            cases r with
            | error e => exact POk_err (hNG e rfl) (by omega)
            | ok left2 => exact POk_mono (ihEL left2 prec ts' (by omega)) (by omega)
          next hlt => exact POk_ok True.intro le_rfl
        case Lt =>
          simp only [parse_expression_loop]
          split
          next hlt =>
            obtain ⟨r, ts', hEq, hLen, hNG, hO⟩ := ihIn left Token.Lt rest (by omega) rfl
            rw [hEq]
            cases r with
            | error e => exact POk_err (hNG e rfl) (by omega)
            | ok left2 => exact POk_mono (ihEL left2 prec ts' (by omega)) (by omega)
          next hlt => exact POk_ok True.intro le_rfl
        case Gt =>
          simp only [parse_expression_loop]
          split
          next hlt =>
            obtain ⟨r, ts', hEq, hLen, hNG, hO⟩ := ihIn left Token.Gt rest (by omega) rfl
            rw [hEq]
            cases r with
            | error e => exact POk_err (hNG e rfl) (by omega)
            | ok left2 => exact POk_mono (ihEL left2 prec ts' (by omega)) (by omega)
          next hlt => exact POk_ok True.intro le_rfl
        case Eq =>
          simp only [parse_expression_loop]
          split
          next hlt =>
            obtain ⟨r, ts', hEq, hLen, hNG, hO⟩ := ihIn left Token.Eq rest (by omega) rfl
            rw [hEq]
            cases r with
            | error e => exact POk_err (hNG e rfl) (by omega)
            | ok left2 => exact POk_mono (ihEL left2 prec ts' (by omega)) (by omega)
          next hlt => exact POk_ok True.intro le_rfl
        case Noteq =>
          simp only [parse_expression_loop]
          split
          next hlt =>
            obtain ⟨r, ts', hEq, hLen, hNG, hO⟩ := ihIn left Token.Noteq rest (by omega) rfl
            rw [hEq]
            cases r with
            | error e => exact POk_err (hNG e rfl) (by omega)
            | ok left2 => exact POk_mono (ihEL left2 prec ts' (by omega)) (by omega)
          next hlt => exact POk_ok True.intro le_rfl
        all_goals
          simp only [parse_expression_loop, Precedence.get_precedence, Precedence.ltb_lowest]
          exact POk_ok True.intro le_rfl
    -- parse_prefix_expression
    · intro tok ts h hbm
      rcases hbm with rfl | rfl
      all_goals
        simp only [parse_prefix_expression]
        split
        next e ts' heq =>
          obtain ⟨h1, h2⟩ := next_token_or_end_err heq
          subst h1
          exact POk_err h2 le_rfl
        next nt ts1 heq =>
          have hc := next_token_or_end_ok heq
          have hl := cons_length hc
          obtain ⟨r, ts2, hEq, hLen, hNG, hO⟩ := ihE nt Precedence.PrefixPrec ts1 (by omega)
          rw [hEq]
          cases r with
          | error e => exact POk_err (hNG e rfl) (by omega)
          | ok rr => exact POk_ok True.intro (by omega)
    -- parse_grouped_expression
    · intro ts h
      simp only [parse_grouped_expression]
      split
      next e ts' heq =>
        obtain ⟨h1, h2⟩ := next_token_or_end_err heq
        subst h1
        exact POk_err h2 le_rfl
      next nt ts1 heq =>
        have hc := next_token_or_end_ok heq
        have hl := cons_length hc
        obtain ⟨r, ts2, hEq, hLen, hNG, hO⟩ := ihE nt Precedence.Lowest ts1 (by omega)
        rw [hEq]
        cases r with
        | error e => exact POk_err (hNG e rfl) (by omega)
        | ok exp =>
          cases ts2 with
          | nil => exact POk_ok True.intro (Nat.zero_le _)
          | cons hd tl =>
            have hx : (hd :: tl).length = tl.length + 1 := rfl
            cases hd
            case Rparen =>
              simp only [next_token_or_end]
              exact POk_ok True.intro (by omega)
            all_goals exact POk_err rfl (by omega)
    -- parse_if_expression
    · intro ts h
      simp only [parse_if_expression]
      split
      next e ts' heq =>
        obtain ⟨h1, h2⟩ := next_token_or_end_err heq
        subst h1
        exact POk_err h2 le_rfl
      next ts1 heq =>
        have hc := next_token_or_end_ok heq
        have hl := cons_length hc
        refine POk_bind (ihE Token.Lparen Precedence.Lowest ts1 (by omega)) (by omega) ?_
        intro condition ts2 hL2 hP2
        refine POk_bind (ihB ts2 (by omega)) (by omega) ?_
        intro consequence ts3 hL3 hP3
        cases ts3 with
        | nil => exact POk_ok True.intro (Nat.zero_le _)
        | cons hd tl =>
          have hx : (hd :: tl).length = tl.length + 1 := rfl
          cases hd
          case Else =>
            exact POk_bind (ihB tl (by omega)) (by omega)
              (fun alt ts5 hL5 hP5 => POk_ok True.intro (by omega))
          all_goals exact POk_ok True.intro (by omega)
      next t ts1 hne heq =>
        have hc := next_token_or_end_ok heq
        have hl := cons_length hc
        exact POk_err rfl (by omega)
    -- parse_function_literal
    · intro ts h
      simp only [parse_function_literal]
      rcases hpp : parse_function_parameters ts with ⟨r0, ts1⟩
      obtain ⟨hs1, hs2, hs3⟩ := parse_function_parameters_spec2 hpp
      cases r0 with
      | error e => exact POk_err (hs2 e rfl) hs1
      | ok params =>
        have hlt := hs3 params rfl
        exact POk_bind (ihB ts1 (by omega)) (by omega)
          (fun body ts2 hL hP => POk_ok True.intro (by omega))
    -- parse_infix_expression
    · intro left op ts h hop
      cases op <;> try simp only [is_infix_tok, Bool.false_eq_true] at hop
      all_goals
        simp only [parse_infix_expression]
        split
        next e ts' heq =>
          obtain ⟨h1, h2⟩ := next_token_or_end_err heq
          subst h1
          exact POk_err h2 le_rfl
        next nt ts1 heq =>
          have hc := next_token_or_end_ok heq
          have hl := cons_length hc
          obtain ⟨r, ts2, hEq, hLen, hNG, hO⟩ := ihE nt _ ts1 (by omega)
          rw [hEq]
          cases r with
          | error e => exact POk_err (hNG e rfl) (by omega)
          | ok rr => exact POk_ok True.intro (by omega)
    -- parse_call_expression
    · intro left ts h
      simp only [parse_call_expression]
      split
      next rest =>
        have hx : (Token.Rparen :: rest).length = rest.length + 1 := rfl
        exact POk_ok True.intro (by omega)
      next hne =>
        split
        next e ts' heq =>
          obtain ⟨h1, h2⟩ := next_token_or_end_err heq
          subst h1
          exact POk_err h2 le_rfl
        next nt ts1 heq =>
          have hc := next_token_or_end_ok heq
          have hl := cons_length hc
          refine POk_bind (ihE nt Precedence.Lowest ts1 (by omega)) (by omega) ?_
          intro arg ts2 hL2 hP2
          refine POk_bind (ihCL [arg] ts2 (by omega)) (by omega) ?_
          intro args ts3 hL3 hP3
          split
          next e ts4 heq4 =>
            obtain ⟨h1, h2⟩ := next_token_or_end_err heq4
            subst h1
            exact POk_err h2 (by omega)
          next ts4 heq4 =>
            have hc4 := next_token_or_end_ok heq4
            have hl4 := cons_length hc4
            exact POk_ok True.intro (by omega)
          next t4 ts4 hne4 heq4 =>
            have hc4 := next_token_or_end_ok heq4
            have hl4 := cons_length hc4
            exact POk_err rfl (by omega)
    -- parse_call_loop
    · intro args ts h
      cases ts with
      | nil =>
        simp only [parse_call_loop]
        exact POk_ok True.intro le_rfl
      | cons a rest =>
        have hl : (a :: rest).length = rest.length + 1 := rfl
        cases a
        case Comma =>
          simp only [parse_call_loop]
          split
          next e ts' heq =>
            obtain ⟨h1, h2⟩ := next_token_or_end_err heq
            subst h1
            exact POk_err h2 (by omega)
          next nt ts1 heq =>
            have hc := next_token_or_end_ok heq
            have hl1 := cons_length hc
            obtain ⟨r, ts2, hEq, hLen, hNG, hO⟩ := ihE nt Precedence.Lowest ts1 (by omega)
            rw [hEq]
            cases r with
            | error e => exact POk_err (hNG e rfl) (by omega)
            | ok arg => exact POk_mono (ihCL (args ++ [arg]) ts2 (by omega)) (by omega)
        all_goals
          simp only [parse_call_loop]
          exact POk_ok True.intro le_rfl
    -- parse_block_statement
    · intro ts h
      simp only [parse_block_statement]
      split
      next e ts' heq =>
        obtain ⟨h1, h2⟩ := next_token_or_end_err heq
        subst h1
        exact POk_err h2 le_rfl
      next ts1 heq =>
        have hc := next_token_or_end_ok heq
        have hl := cons_length hc
        refine POk_bind (ihBL [] ts1 (by omega)) (by omega) ?_
        intro block ts2 hL2 hP2
        split
        next e ts3 heq2 =>
          obtain ⟨h1, h2⟩ := next_token_or_end_err heq2
          subst h1
          exact POk_err h2 (by omega)
        next ts3 heq2 =>
          have hc2 := next_token_or_end_ok heq2
          have hl2 := cons_length hc2
          exact POk_ok True.intro (by omega)
        next t ts3 hne heq2 =>
          have hc2 := next_token_or_end_ok heq2
          have hl2 := cons_length hc2
          exact POk_err rfl (by omega)
      next t ts1 hne heq =>
        have hc := next_token_or_end_ok heq
        have hl := cons_length hc
        exact POk_err rfl (by omega)
    -- parse_block_loop
    · intro acc ts h
      cases ts with
      | nil =>
        simp only [parse_block_loop]
        exact POk_err rfl le_rfl
      | cons a rest =>
        have hl : (a :: rest).length = rest.length + 1 := rfl
        cases a
        case Semicolon =>
          simp only [parse_block_loop]
          exact POk_mono (ihBL acc rest (by omega)) (by omega)
        case Rbrace =>
          simp only [parse_block_loop]
          exact POk_ok True.intro le_rfl
        all_goals
          simp only [parse_block_loop]
          obtain ⟨r, ts', hEq, hLen, hNG, hO⟩ := ihS _ rest (by omega)
          rw [hEq]
          cases r with
          | error e => exact POk_err (hNG e rfl) (by omega)
          | ok s => exact POk_mono (ihBL (acc ++ [s]) ts' (by omega)) (by omega)

/-- The invariant lifted to the top-level statement loop: with fuel above
`6·|stream| + 1` the loop returns, only appending to its accumulators, and the
appended statements are never `BlockStatement`s while the appended errors are
never `Generic`. -/
lemma parse_program_loop_invariant :
    ∀ (fuel : Nat) (stmts : List Statement) (errs : List ParsingError) (ts : List Token),
      6 * ts.length + 1 ≤ fuel →
      ∃ stmts2 errs2,
        parse_program_loop fuel stmts errs ts = some (stmts ++ stmts2, errs ++ errs2) ∧
        (∀ s ∈ stmts2, stmt_not_block s) ∧ (∀ e ∈ errs2, is_generic e = false) := by
  intro fuel
  induction fuel with
  | zero =>
    intro stmts errs ts hh
    exact absurd hh (by omega)
  | succ n ih =>
    intro stmts errs ts hh
    cases ts with
    | nil =>
      refine ⟨[], [], by simp [parse_program_loop], ?_, ?_⟩ <;> intro x hx <;> cases hx
    | cons a rest =>
      have hx : (a :: rest).length = rest.length + 1 := rfl
      cases a
      case Semicolon =>
        obtain ⟨s2, e2, hEq, hA, hB⟩ := ih stmts errs rest (by omega)
        exact ⟨s2, e2, hEq, hA, hB⟩
      all_goals
        simp only [parse_program_loop]
        obtain ⟨r, ts', hEq, hLen, hNG, hOk⟩ := (parser_invariants n).1 _ rest (by omega)
        rw [hEq]
        cases r with
        | ok s0 =>
          obtain ⟨s2, e2, hEq2, hA, hB⟩ := ih (stmts ++ [s0]) errs ts' (by omega)
          refine ⟨s0 :: s2, e2, ?_, ?_, hB⟩
          · show parse_program_loop n (stmts ++ [s0]) errs ts' =
              some (stmts ++ s0 :: s2, errs ++ e2)
            rw [hEq2]
            simp
          · intro x hxx
            rcases List.mem_cons.mp hxx with rfl | hmem
            · exact hOk x rfl
            · exact hA x hmem
        | error e0 =>
          obtain ⟨s2, e2, hEq2, hA, hB⟩ := ih stmts (errs ++ [e0]) ts' (by omega)
          refine ⟨s2, e0 :: e2, ?_, hA, ?_⟩
          · show parse_program_loop n stmts (errs ++ [e0]) ts' =
              some (stmts ++ s2, errs ++ e0 :: e2)
            rw [hEq2]
            simp
          · intro x hxx
            rcases List.mem_cons.mp hxx with rfl | hmem
            · exact hNG x rfl
            · exact hB x hmem

/-- C7: `parse_program` terminates on every finite token stream: the fuel it
allots (`parser_fuel`) always suffices (the result is `some`, never the
fuel-exhaustion marker), and the outcome is either a `Program` or a non-empty
error list, because the code fails exactly when `errors.len() > 0`. -/
theorem claim_C7 :
    ∀ ts : List Token, ∃ r, parse_program ts = some r ∧
      ((∃ p : Program, r = Except.ok p) ∨
       (∃ es, r = Except.error es ∧ es ≠ [])) := by
  intro ts
  obtain ⟨s2, e2, hEq, hA, hB⟩ :=
    parse_program_loop_invariant (parser_fuel ts) [] [] ts (by simp [parser_fuel])
  simp only [parse_program, hEq]
  cases e2 with
  | nil => exact ⟨Except.ok s2, by simp, Or.inl ⟨s2, by simp⟩⟩
  | cons e es' =>
    refine ⟨Except.error (e :: es'), by simp, Or.inr ⟨e :: es', by simp, by simp⟩⟩

/-- C6: `parse_program` never reports a `ParsingError.Generic` (the
`is_generic` predicate holds of no returned error): the `Generic` branches in
`parse_prefix_expression` and `parse_infix_expression` are unreachable since
every call site dispatches on tokens inside the accepted operator sets. -/
theorem claim_C6 :
    ∀ (ts : List Token) (es : List ParsingError),
      parse_program ts = some (Except.error es) →
      ∀ e ∈ es, is_generic e = false := by
  intro ts es hp e he
  obtain ⟨s2, e2, hEq, hA, hB⟩ :=
    parse_program_loop_invariant (parser_fuel ts) [] [] ts (by simp [parser_fuel])
  rw [parse_program, hEq] at hp
  cases e2 with
  | nil => simp at hp
  | cons e0 es' =>
    simp at hp
    subst hp
    exact hB e he

/-- C6 witness: the error reported for the program `=` is not `Generic`. -/
theorem claim_C6_witness :
    is_generic (ParsingError.InvalidPrefixOperator Token.Assign) = false :=
  claim_C6 [Token.Assign] [ParsingError.InvalidPrefixOperator Token.Assign] rfl
    (ParsingError.InvalidPrefixOperator Token.Assign) (by simp)

/-- C9: in every `Program` returned successfully by `parse_program`, no
top-level statement is a `BlockStatement`: `parse_statement` only ever
produces `Let`, `Return`, or `Expression` nodes, with block statements
appearing only nested inside if-expressions and function literals. -/
theorem claim_C9 :
    ∀ (ts : List Token) (p : Program),
      parse_program ts = some (Except.ok p) →
      ∀ s ∈ p, ∀ l, s ≠ Statement.BlockStatement l := by
  intro ts p hp s hs l
  obtain ⟨s2, e2, hEq, hA, hB⟩ :=
    parse_program_loop_invariant (parser_fuel ts) [] [] ts (by simp [parser_fuel])
  rw [parse_program, hEq] at hp
  cases e2 with
  | nil =>
    simp at hp
    subst hp
    exact hA s hs l
  | cons e0 es' => simp at hp

/-- C9 witness: the theorem applied to the one-statement program `a`. -/
theorem claim_C9_witness :
    Statement.Expression (Expression.Identifier ("a")) ≠ Statement.BlockStatement [] :=
  claim_C9 [Token.Identifier ("a")] [Statement.Expression (Expression.Identifier ("a"))] rfl
    (Statement.Expression (Expression.Identifier ("a"))) (by simp) []
